import Mathlib

/-!
Verification of the Timeline Synchronization & Playback Engine
(webdisplay backend: `data_processor.py`, `video_timestamp_mapper.py`,
`app.py`).

The Python source is embedded shallowly:

* timestamps held by the sample store are the nanosecond integers
  `pandas.Timedelta.value`, modelled as `ℤ`;
* second-valued quantities (mapper anchors, playback pacing) are Python
  floats in the source, modelled exactly as `ℚ`;
* `bisect.bisect_left` is modelled by its documented contract on the
  (sorted) lists the source applies it to: the length of the maximal
  prefix of elements `< target`;
* fallible operations return `Option`.
-/

namespace WebDisplay

/-- `bisect.bisect_left a x`: insertion point of `x` in `a`.  For the
sorted lists this code applies it to, that is the length of the maximal
prefix of elements strictly below `x`, which is what this recursion
computes. -/
def bisect_left {α : Type} [LinearOrder α] : List α → α → ℕ
  | [], _ => 0
  | y :: ys, x => if y < x then bisect_left ys x + 1 else 0

theorem bisect_left_le_length {α : Type} [LinearOrder α] (l : List α) (x : α) :
    bisect_left l x ≤ l.length := by
  induction l with
  | nil => simp [bisect_left]
  | cons y ys ih =>
    simp only [bisect_left, List.length_cons]
    split
    · omega
    · omega

theorem bisect_left_prefix_lt {α : Type} [LinearOrder α] (l : List α) (x : α) (d : α)
    (j : ℕ) (hj : j < bisect_left l x) : l.getD j d < x := by
  induction l generalizing j with
  | nil => simp [bisect_left] at hj
  | cons y ys ih =>
    simp only [bisect_left] at hj
    by_cases hy : y < x
    · simp only [hy, if_true] at hj
      cases j with
      | zero => simpa using hy
      | succ j => exact ih j (by omega)
    · simp [hy] at hj

theorem bisect_left_le_getD {α : Type} [LinearOrder α] (l : List α) (x : α) (d : α)
    (h : bisect_left l x < l.length) : x ≤ l.getD (bisect_left l x) d := by
  induction l with
  | nil => simp [bisect_left] at h
  | cons y ys ih =>
    simp only [bisect_left] at h ⊢
    by_cases hy : y < x
    · simp only [hy, if_true, List.length_cons] at h ⊢
      simpa using ih (by omega)
    · simp only [hy, if_false]
      simpa using le_of_not_lt hy

/-- On a strictly sorted list, `bisect_left` hits an exactly matching
element's own index. -/
theorem bisect_left_eq_of_sorted_getD {α : Type} [LinearOrder α]
    (l : List α) (d : α) (k : ℕ) (hs : l.Sorted (· < ·)) (hk : k < l.length)
    (x : α) (hx : l.getD k d = x) : bisect_left l x = k := by
  induction l generalizing k with
  | nil => simp at hk
  | cons y ys ih =>
    rw [List.sorted_cons] at hs
    cases k with
    | zero =>
      simp only [List.getD_cons_zero] at hx
      subst hx
      simp [bisect_left]
    | succ k =>
      simp only [List.getD_cons_succ] at hx
      have hky : k < ys.length := by simpa [Nat.succ_lt_succ_iff] using hk
      have hyx : y < x := by
        have hmem : ys.getD k d ∈ ys := by
          rw [List.getD_eq_getElem _ _ hky]
          exact List.getElem_mem hky
        exact hx ▸ hs.1 _ hmem
      simp only [bisect_left, hyx, if_true]
      rw [ih k hs.2 hky hx]

/-- On a strictly sorted list, `getD` is strictly monotone in the index. -/
theorem sorted_getD_lt {α : Type} [LinearOrder α] (l : List α) (d : α)
    (hs : l.Sorted (· < ·)) (i j : ℕ) (hij : i < j) (hj : j < l.length) :
    l.getD i d < l.getD j d := by
  rw [List.getD_eq_getElem _ _ (lt_trans hij hj), List.getD_eq_getElem _ _ hj]
  exact List.pairwise_iff_getElem.mp hs i j (lt_trans hij hj) hj hij

/-- `FlightDataProcessor.find_index_for_timestamp` (`data_processor.py`
lines 121-155).  The store's precomputed `timestamp_ns_list` holds the
integer nanosecond values of the row timestamps; the caller's
`timestamp_seconds` argument is converted to the integer `target_ns`
before the search, so the function is modelled directly on nanosecond
integers. -/
def find_index_for_timestamp (timestamp_ns_list : List ℤ) (target_ns : ℤ) :
    Option ℕ :=
  if timestamp_ns_list.isEmpty then none
  else
    let idx := bisect_left timestamp_ns_list target_ns
    if idx = 0 then some 0
    else if timestamp_ns_list.length ≤ idx then
      some (timestamp_ns_list.length - 1)
    else
      let prev_diff := (timestamp_ns_list.getD (idx - 1) 0 - target_ns).natAbs
      let next_diff := (timestamp_ns_list.getD idx 0 - target_ns).natAbs
      if prev_diff < next_diff then some (idx - 1) else some idx

/-- On a strictly sorted list, an `x` with `l[i] < x ≤ l[i+1]` has
insertion point `i+1`. -/
theorem bisect_left_eq_of_sorted_between {α : Type} [LinearOrder α]
    (l : List α) (d : α) (hs : l.Sorted (· < ·)) (i : ℕ) (hi : i + 1 < l.length)
    (x : α) (h1 : l.getD i d < x) (h2 : x ≤ l.getD (i + 1) d) :
    bisect_left l x = i + 1 := by
  have hle := bisect_left_le_length l x
  rcases lt_trichotomy (bisect_left l x) (i + 1) with h | h | h
  · exfalso
    have hnl : bisect_left l x < l.length := by omega
    have hx := bisect_left_le_getD l x d hnl
    have hni : l.getD (bisect_left l x) d ≤ l.getD i d := by
      rcases Nat.lt_or_ge (bisect_left l x) i with hlt | hge
      · exact le_of_lt (sorted_getD_lt l d hs _ i hlt (by omega))
      · have : bisect_left l x = i := by omega
        rw [this]
    exact absurd (lt_of_le_of_lt (le_trans hx hni) h1) (lt_irrefl x)
  · exact h
  · exfalso
    have := bisect_left_prefix_lt l x d (i + 1) h
    exact absurd (lt_of_le_of_lt h2 this) (lt_irrefl x)

/-- C5: on a store with (strictly) ascending timestamps, querying
`find_index_for_timestamp` with the exact timestamp of sample `k`
returns `k`. -/
theorem find_index_exact_hit (l : List ℤ) (k : ℕ)
    (hs : l.Sorted (· < ·)) (hk : k < l.length) :
    find_index_for_timestamp l (l.getD k 0) = some k := by
  have hne : l.isEmpty = false := by
    cases l
    · simp at hk
    · rfl
  have hidx : bisect_left l (l.getD k 0) = k :=
    bisect_left_eq_of_sorted_getD l 0 k hs hk _ rfl
  unfold find_index_for_timestamp
  simp only [hne, Bool.false_eq_true, if_false, hidx]
  cases k with
  | zero => simp
  | succ k =>
    have h1 : ¬ (k + 1 = 0) := by omega
    have h2 : ¬ (l.length ≤ k + 1) := by omega
    simp only [h1, h2, if_false]
    simp

/-- C5 witness: concrete exact hit at index 1 of store `[0, 5, 10]`. -/
theorem find_index_exact_hit_witness :
    find_index_for_timestamp [0, 5, 10] 5 = some 1 := by
  have h := find_index_exact_hit [0, 5, 10] 1 (by decide) (by decide)
  simpa using h

/-- On a non-empty store, `find_index_for_timestamp` returns some
in-range index. -/
theorem find_index_eq_some (l : List ℤ) (t : ℤ) (hne : l ≠ []) :
    ∃ i, find_index_for_timestamp l t = some i ∧ i < l.length := by
  have hE : l.isEmpty = false := by simpa [List.isEmpty_iff] using hne
  have hlen : 0 < l.length := List.length_pos.mpr hne
  have hle := bisect_left_le_length l t
  unfold find_index_for_timestamp
  rw [hE]
  simp only [Bool.false_eq_true, if_false]
  by_cases h0 : bisect_left l t = 0
  · exact ⟨0, by simp [h0], hlen⟩
  · by_cases h1 : l.length ≤ bisect_left l t
    · exact ⟨l.length - 1, by simp [h0, h1], by omega⟩
    · by_cases h2 : ((l[bisect_left l t - 1]?).getD 0 - t).natAbs <
          ((l[bisect_left l t]?).getD 0 - t).natAbs
      · exact ⟨bisect_left l t - 1, by simp [h0, h1, h2], by omega⟩
      · exact ⟨bisect_left l t, by simp [h0, h1, h2], by omega⟩

/-- Embeds `pd.to_timedelta(timestamp_seconds, unit='s').value`
(`data_processor.py` lines 134-136): the seconds value is scaled to
integer nanoseconds, and the conversion raises `OutOfBoundsTimedelta`
(modelled `none`) when the result leaves the int64 `Timedelta` range
`[-(2^63 - 1), 2^63 - 1]` (`pd.Timedelta.min` / `.max`).  The float
scaling is modelled as exact rational scaling with a floor; the
sub-nanosecond rounding mode matters to no claim here. -/
def to_timedelta_value (timestamp_seconds : ℚ) : Option ℤ :=
  if -(2 ^ 63 - 1) ≤ ⌊timestamp_seconds * 1000000000⌋ ∧
      ⌊timestamp_seconds * 1000000000⌋ ≤ 2 ^ 63 - 1 then
    some ⌊timestamp_seconds * 1000000000⌋
  else none

/-- `FlightDataProcessor.find_index_for_timestamp` on its true
seconds-valued argument (lines 121-155): the emptiness guard of line
126 runs first, then the conversion of lines 134-136 — whose
`OutOfBoundsTimedelta` propagates to the caller (`.error ()`) — then the
nanosecond search modelled by `find_index_for_timestamp`. -/
def find_index_for_timestamp_seconds (timestamp_ns_list : List ℤ)
    (timestamp_seconds : ℚ) : Except Unit (Option ℕ) :=
  if timestamp_ns_list.isEmpty then .ok none
  else
    match to_timedelta_value timestamp_seconds with
    | none => .error ()
    | some target_ns => .ok (find_index_for_timestamp timestamp_ns_list target_ns)

/-- C9 counterexample: on the non-empty store `[0]` the finite target
`10^10` seconds (about 317 years) scales to `10^19` ns, beyond the
int64 `Timedelta` range, so the line-135 conversion raises
`OutOfBoundsTimedelta` and the query errors instead of returning an
index — the claimed "never produce an error" fails. -/
theorem find_index_overflow_counterexample :
    ([(0 : ℤ)] : List ℤ) ≠ [] ∧
    to_timedelta_value (10 ^ 10) = none ∧
    find_index_for_timestamp_seconds [0] (10 ^ 10) = .error () := by
  have hconv : to_timedelta_value (10 ^ 10) = none := by
    unfold to_timedelta_value
    rw [show ⌊(10 : ℚ) ^ 10 * 1000000000⌋ = 10 ^ 19 by norm_num]
    rw [if_neg (by norm_num)]
  refine ⟨by decide, hconv, ?_⟩
  unfold find_index_for_timestamp_seconds
  rw [hconv]
  rfl

/-- C9 (amended): the emptiness guard precedes the conversion, so the
query returns `None` exactly on the empty store (no error there, for
any target); on a non-empty store every returned index lies in
`[0, N)`; and the query raises `OutOfBoundsTimedelta` exactly when the
store is non-empty and the finite target scales beyond the int64
`Timedelta` range — such out-of-range targets produce an error, not an
index. -/
theorem find_index_seconds_total (l : List ℤ) (s : ℚ) :
    (find_index_for_timestamp_seconds l s = .ok none ↔ l = []) ∧
    (∀ i, find_index_for_timestamp_seconds l s = .ok (some i) →
      i < l.length) ∧
    (find_index_for_timestamp_seconds l s = .error () ↔
      l ≠ [] ∧ to_timedelta_value s = none) := by
  by_cases hl : l = []
  · subst hl
    simp [find_index_for_timestamp_seconds]
  · have hE : l.isEmpty = false := by simpa [List.isEmpty_iff] using hl
    cases hconv : to_timedelta_value s with
    | none =>
      have hfull : find_index_for_timestamp_seconds l s = .error () := by
        unfold find_index_for_timestamp_seconds
        rw [hE]
        simp only [Bool.false_eq_true, if_false, hconv]
      rw [hfull]
      refine ⟨⟨fun h => absurd h (by simp), fun h => absurd h hl⟩,
        fun i hi => absurd hi (by simp), ?_⟩
      simp [hl]
    | some ns =>
      obtain ⟨j, hj, hjl⟩ := find_index_eq_some l ns hl
      have hfull : find_index_for_timestamp_seconds l s = .ok (some j) := by
        unfold find_index_for_timestamp_seconds
        rw [hE]
        simp only [Bool.false_eq_true, if_false, hconv]
        rw [hj]
      rw [hfull]
      refine ⟨⟨fun h => absurd h (by simp), fun h => absurd h hl⟩,
        fun i hi => ?_, fun h => absurd h (by simp), ?_⟩
      · simp only [Except.ok.injEq, Option.some.injEq] at hi
        omega
      · rintro ⟨-, h⟩
        exact absurd h (by simp)

/-- C9 (amended) witness: the in-range target `3` s on the store
`[0ns, 5ns]` returns index `1`, which is in range. -/
theorem find_index_seconds_total_witness :
    find_index_for_timestamp_seconds [0, 5] 3 = .ok (some 1) ∧
    1 < ([(0 : ℤ), 5] : List ℤ).length := by
  have hconv : to_timedelta_value 3 = some 3000000000 := by
    unfold to_timedelta_value
    rw [show ⌊(3 : ℚ) * 1000000000⌋ = 3000000000 by norm_num]
    rw [if_pos (by norm_num)]
  have hfind : find_index_for_timestamp [0, 5] 3000000000 = some 1 := by decide
  have heq : find_index_for_timestamp_seconds [0, 5] 3 = .ok (some 1) := by
    unfold find_index_for_timestamp_seconds
    rw [hconv]
    exact congrArg Except.ok hfind
  exact ⟨heq, (find_index_seconds_total [0, 5] 3).2.1 1 heq⟩

/-- C1 counterexample: the store `[0, 2]` has ascending timestamps and
the target `1` is exactly equidistant between samples `0` and `1`, yet
`find_index_for_timestamp` returns the later index `1`, not `0`: the
code's `prev_diff < next_diff` comparison is strict, so ties go right. -/
theorem find_index_tie_counterexample :
    List.Sorted (· < ·) ([0, 2] : List ℤ) ∧
    (1 : ℤ) - 0 = 2 - 1 ∧
    find_index_for_timestamp [0, 2] 1 = some 1 ∧
    find_index_for_timestamp [0, 2] 1 ≠ some 0 := by
  refine ⟨by decide, by decide, by decide, by decide⟩

/-- C1 (amended): on a store with ascending timestamps, a target exactly
equidistant between consecutive samples `i` and `i+1` resolves to the
LATER index `i+1`. -/
theorem find_index_tie_prefers_later (l : List ℤ) (i : ℕ) (t : ℤ)
    (hs : l.Sorted (· < ·)) (hi : i + 1 < l.length)
    (ht : 2 * t = l.getD i 0 + l.getD (i + 1) 0) :
    find_index_for_timestamp l t = some (i + 1) := by
  have hab : l.getD i 0 < l.getD (i + 1) 0 :=
    sorted_getD_lt l 0 hs i (i + 1) (by omega) hi
  have h1 : l.getD i 0 < t := by omega
  have h2 : t ≤ l.getD (i + 1) 0 := by omega
  have hne : l.isEmpty = false := by
    cases l
    · simp at hi
    · rfl
  have hidx : bisect_left l t = i + 1 :=
    bisect_left_eq_of_sorted_between l 0 hs i hi t h1 h2
  unfold find_index_for_timestamp
  simp only [hne, Bool.false_eq_true, if_false, hidx]
  have hb1 : ¬ (i + 1 = 0) := by omega
  have hb2 : ¬ (l.length ≤ i + 1) := by omega
  simp only [hb1, hb2, if_false]
  have habs : (l.getD i 0 - t).natAbs = (l.getD (i + 1) 0 - t).natAbs := by
    omega
  simp only [Nat.add_sub_cancel, habs, lt_irrefl, if_false]

/-- C1 (amended) witness: in the store `[0, 2]` the equidistant target
`1` resolves to index `1`. -/
theorem find_index_tie_prefers_later_witness :
    find_index_for_timestamp [0, 2] 1 = some 1 := by
  have h := find_index_tie_prefers_later [0, 2] 0 1 (by decide) (by decide) (by decide)
  simpa using h

/-! ## Sample store rows and quaternion derivation (`data_processor.py`) -/

/-- A quaternion in scipy's `[x, y, z, w]` component order. -/
structure Quat where
  x : ℚ
  y : ℚ
  z : ℚ
  w : ℚ
deriving DecidableEq, Repr

/-- The identity quaternion `[0, 0, 0, 1]`. -/
def qid : Quat := ⟨0, 0, 0, 1⟩

/-- Hamilton product: `qmul a b` is the quaternion of the composed
rotation `Rotation.from_quat(a) * Rotation.from_quat(b)` (apply `b`
first, then `a`), in scipy's `xyzw` layout.  scipy normalizes the
operands in `from_quat`; on the unit quaternions the store holds that
normalization is the identity, so it is not modelled. -/
def qmul (a b : Quat) : Quat where
  x := a.w * b.x + a.x * b.w + a.y * b.z - a.z * b.y
  y := a.w * b.y - a.x * b.z + a.y * b.w + a.z * b.x
  z := a.w * b.z + a.x * b.y - a.y * b.x + a.z * b.w
  w := a.w * b.w - a.x * b.x - a.y * b.y - a.z * b.z

/-- One parsed CSV row of `merged_data.csv`, as read by
`FlightDataProcessor.get_data_at_index`. -/
structure DataRow where
  x_helmet : ℚ
  y_helmet : ℚ
  z_helmet : ℚ
  w_helmet : ℚ
  x_vehicle : ℚ
  y_vehicle : ℚ
  z_vehicle : ℚ
  w_vehicle : ℚ
  north : ℚ
  east : ℚ
  down : ℚ
  lat : ℚ
  lon : ℚ
  alt : ℚ
  mode : ℤ
deriving DecidableEq, Repr

/-- The dictionary `get_data_at_index` returns.  `GSPEED` (a real square
root) is irrational in general and is not needed by any claim, so it is
omitted; `timestamp_seconds` is `timestamp_ns / 1e9`, exact in `ℚ`. -/
structure FrameData where
  index : ℕ
  timestamp_seconds : ℚ
  timestamp_ns : ℤ
  VQ : Quat
  HQ : Quat
  VLAT : ℚ
  VLON : ℚ
  VALT : ℚ
  VVN : ℚ
  VVE : ℚ
  VVD : ℚ
  VINS : ℤ
deriving DecidableEq, Repr

/-- `FlightDataProcessor.get_data_at_index` (`data_processor.py` lines
64-119) over the store's `data_list` of `(timestamp, row)` pairs.  The
Python `index < 0 or index >= len` guard is the `List.get?` bound check
(indices are non-negative here). -/
def get_data_at_index (data_list : List (ℤ × DataRow)) (index : ℕ) :
    Option FrameData :=
  match data_list.get? index with
  | none => none
  | some (ts, row) =>
    let helmet_corrected : Quat :=
      ⟨row.x_helmet, row.y_helmet, row.z_helmet, row.w_helmet⟩
    let vehicle_world : Quat :=
      ⟨row.x_vehicle, row.y_vehicle, row.z_vehicle, row.w_vehicle⟩
    let helmet_world := qmul vehicle_world helmet_corrected
    some
      { index := index
        timestamp_seconds := (ts : ℚ) / 1000000000
        timestamp_ns := ts
        VQ := vehicle_world
        HQ := helmet_world
        VLAT := row.lat
        VLON := row.lon
        VALT := row.alt
        VVN := row.north
        VVE := row.east
        VVD := row.down
        VINS := row.mode }

/-- C7: every returned sample's headset orientation is the composition
`world_from_vehicle * vehicle_from_headset` (vehicle world rotation
applied first in the scipy product `vehicle_world * helmet_corrected`),
and when both raw quaternions are the identity the headset orientation
equals the vehicle orientation. -/
theorem headset_orientation_composition (data_list : List (ℤ × DataRow))
    (i : ℕ) (ts : ℤ) (row : DataRow) (fd : FrameData)
    (hrow : data_list.get? i = some (ts, row))
    (hfd : get_data_at_index data_list i = some fd) :
    fd.VQ = ⟨row.x_vehicle, row.y_vehicle, row.z_vehicle, row.w_vehicle⟩ ∧
    fd.HQ = qmul ⟨row.x_vehicle, row.y_vehicle, row.z_vehicle, row.w_vehicle⟩
      ⟨row.x_helmet, row.y_helmet, row.z_helmet, row.w_helmet⟩ ∧
    ((⟨row.x_vehicle, row.y_vehicle, row.z_vehicle, row.w_vehicle⟩ : Quat) = qid →
      (⟨row.x_helmet, row.y_helmet, row.z_helmet, row.w_helmet⟩ : Quat) = qid →
      fd.HQ = fd.VQ) := by
  unfold get_data_at_index at hfd
  rw [hrow] at hfd
  simp only [Option.some.injEq] at hfd
  subst hfd
  refine ⟨rfl, rfl, fun hv hh => ?_⟩
  simp only [hv, hh]
  show qmul qid qid = qid
  simp [qmul, qid]

/-- C7 witness: a concrete row with identity vehicle and headset
quaternions yields `HQ = VQ`. -/
theorem headset_orientation_composition_witness :
    (get_data_at_index
        [(0, ⟨0, 0, 0, 1, 0, 0, 0, 1, 0, 0, 0, 0, 0, 0, 0⟩)] 0).map
        (fun fd => (fd.HQ, fd.VQ)) =
      some (qid, qid) := by
  have hrow : ([((0 : ℤ), (⟨0, 0, 0, 1, 0, 0, 0, 1, 0, 0, 0, 0, 0, 0, 0⟩ : DataRow))]).get? 0 =
      some ((0 : ℤ), ⟨0, 0, 0, 1, 0, 0, 0, 1, 0, 0, 0, 0, 0, 0, 0⟩) := rfl
  have hfd : get_data_at_index
      [(0, ⟨0, 0, 0, 1, 0, 0, 0, 1, 0, 0, 0, 0, 0, 0, 0⟩)] 0 =
      some { index := 0, timestamp_seconds := ((0 : ℤ) : ℚ) / 1000000000,
             timestamp_ns := 0,
             VQ := ⟨0, 0, 0, 1⟩, HQ := qmul ⟨0, 0, 0, 1⟩ ⟨0, 0, 0, 1⟩,
             VLAT := 0, VLON := 0, VALT := 0,
             VVN := 0, VVE := 0, VVD := 0, VINS := 0 } := rfl
  have h := headset_orientation_composition _ 0 0 _ _ hrow hfd
  have hq := h.2.2 rfl rfl
  rw [hfd]
  simp only [Option.map_some', Option.some.injEq]
  refine Prod.ext ?_ rfl
  exact hq.trans rfl

/-! ## Playback scheduler (`app.py`) -/

/-- The speed update shared by `handle_start_playback` (app.py line 567)
and `handle_set_speed` (line 608):
`playback_speed = min(requested_speed, 2.0)`. -/
def clamp_speed (requested_speed : ℚ) : ℚ :=
  min requested_speed 2

/-- The pacing computation of one `playback_loop` iteration (app.py
lines 660-715): given the previous emitted timestamp (`last_timestamp`,
`None` before the first emission), the current sample's
`timestamp_seconds` and `playback_speed`, the sleep before the next
iteration. -/
def playback_sleep_time (last_timestamp : Option ℚ) (current_timestamp : ℚ)
    (playback_speed : ℚ) : ℚ :=
  match last_timestamp with
  | some last =>
    let timestamp_diff := current_timestamp - last
    if timestamp_diff < 0 then 1 / 100 / playback_speed
    else if 10 < timestamp_diff then 1 / 100 / playback_speed
    else if timestamp_diff = 0 then 1 / 1000 / playback_speed
    else max (1 / 1000) (min (1 / 10) (timestamp_diff / playback_speed))
  | none => 1 / 100 / playback_speed

/-- The scheduler's mutable module state (`playback_index`,
`playback_speed`, `playback_active` globals plus the loop-local
`last_timestamp`). -/
structure LoopState where
  playback_index : ℕ
  last_timestamp : Option ℚ
  playback_speed : ℚ
  playback_active : Bool
deriving DecidableEq, Repr

/-- `handle_seek` (app.py lines 614-620): sets `playback_index` only;
`last_timestamp` is a loop-local and is NOT touched. -/
def handle_seek (s : LoopState) (index : ℕ) : LoopState :=
  { s with playback_index := index }

/-- The sleep the next emitting loop iteration computes in state `s`
over a store `data_list` (app.py lines 655-715): data at the cursor is
fetched and its `timestamp_seconds` paced against `last_timestamp`;
a missing row falls back to the default delay. -/
def tick_sleep_time (data_list : List (ℤ × DataRow)) (s : LoopState) : ℚ :=
  match get_data_at_index data_list s.playback_index with
  | some data => playback_sleep_time s.last_timestamp data.timestamp_seconds
      s.playback_speed
  | none => 1 / 100 / s.playback_speed

/-- C2: the pacing map at speed 1.0 sends Δ = 50ms to exactly 50ms,
Δ = 500ms to the clamped 100ms, Δ = 0 to the minimum 1ms; and at any
speed, Δ < 0 and Δ > 10s give the fixed 10ms-over-speed default while
0 < Δ ≤ 10s gives Δ/speed clamped to [1ms, 100ms]. -/
theorem playback_pacing_clamp (last current : ℚ) :
    (current - last = 1 / 20 →
      playback_sleep_time (some last) current 1 = 1 / 20) ∧
    (current - last = 1 / 2 →
      playback_sleep_time (some last) current 1 = 1 / 10) ∧
    (current - last = 0 →
      playback_sleep_time (some last) current 1 = 1 / 1000) ∧
    (∀ speed : ℚ, current - last < 0 →
      playback_sleep_time (some last) current speed = 1 / 100 / speed) ∧
    (∀ speed : ℚ, 10 < current - last →
      playback_sleep_time (some last) current speed = 1 / 100 / speed) ∧
    (∀ speed : ℚ, 0 < current - last → current - last ≤ 10 →
      playback_sleep_time (some last) current speed =
        max (1 / 1000) (min (1 / 10) ((current - last) / speed))) := by
  refine ⟨fun h => ?_, fun h => ?_, fun h => ?_,
    fun speed h => ?_, fun speed h => ?_, fun speed h1 h2 => ?_⟩
  · simp only [playback_sleep_time, h]
    norm_num
  · simp only [playback_sleep_time, h]
    norm_num
  · simp only [playback_sleep_time, h]
    norm_num
  · simp only [playback_sleep_time, if_pos h]
  · simp only [playback_sleep_time]
    rw [if_neg (by linarith), if_pos h]
  · simp only [playback_sleep_time]
    rw [if_neg (by linarith), if_neg (by linarith), if_neg (by linarith)]

/-- C2 witness: concrete pacing values at speed 1.0 for Δ = 50ms,
500ms, 0, -1s and 11s. -/
theorem playback_pacing_clamp_witness :
    playback_sleep_time (some 0) (1 / 20) 1 = 1 / 20 ∧
    playback_sleep_time (some 0) (1 / 2) 1 = 1 / 10 ∧
    playback_sleep_time (some 0) 0 1 = 1 / 1000 ∧
    playback_sleep_time (some 0) (-1) 1 = 1 / 100 ∧
    playback_sleep_time (some 0) 11 1 = 1 / 100 ∧
    playback_sleep_time (some 0) 5 1 = max (1 / 1000) (min (1 / 10) (5 / 1)) := by
  refine ⟨(playback_pacing_clamp 0 (1 / 20)).1 (by norm_num),
    (playback_pacing_clamp 0 (1 / 2)).2.1 (by norm_num),
    (playback_pacing_clamp 0 0).2.2.1 (by norm_num),
    ?_, ?_, ?_⟩
  · have h := (playback_pacing_clamp 0 (-1)).2.2.2.1 1 (by norm_num)
    simpa using h
  · have h := (playback_pacing_clamp 0 11).2.2.2.2.1 1 (by norm_num)
    simpa using h
  · have h := (playback_pacing_clamp 0 5).2.2.2.2.2 1 (by norm_num) (by norm_num)
    simpa using h

/-- C3 counterexample: a requested speed of 0 (and likewise any
non-positive request) is stored unchanged by the shared
`min(requested, 2.0)` update, so the stored multiplier is not strictly
positive. -/
theorem clamp_speed_counterexample :
    clamp_speed 0 = 0 ∧ ¬ (0 < clamp_speed 0) := by
  constructor
  · simp [clamp_speed]
  · simp [clamp_speed]

/-- C3 (amended): the stored speed is `min(requested, 2.0)`: it never
exceeds 2.0 and any request above 2.0 is silently capped to 2.0, but a
request of at most 2.0 — including 0 or a negative value — is stored
unchanged, so no strict positivity holds. -/
theorem clamp_speed_upper_cap (requested : ℚ) :
    clamp_speed requested ≤ 2 ∧
    (2 < requested → clamp_speed requested = 2) ∧
    (requested ≤ 2 → clamp_speed requested = requested) := by
  refine ⟨min_le_right _ _, fun h => ?_, fun h => ?_⟩
  · simp [clamp_speed, min_eq_right (le_of_lt h)]
  · simp [clamp_speed, min_eq_left h]

/-- C3 (amended) witness: a request of 3 is capped to 2, a request of
2 is kept. -/
theorem clamp_speed_upper_cap_witness :
    clamp_speed 3 = 2 ∧ clamp_speed 2 = 2 :=
  ⟨(clamp_speed_upper_cap 3).2.1 (by norm_num),
   (clamp_speed_upper_cap 2).2.2 (by norm_num)⟩

/-- C4 counterexample: with the last emission at 0s, seeking forward to
a sample stamped 5s leaves `last_timestamp` untouched and the next tick
paces against the pre-seek timestamp: Δ = 5s falls in the normal branch
and is clamped to 100ms, not the 10ms default. -/
theorem seek_pacing_counterexample :
    (handle_seek ⟨0, some 0, 1, true⟩ 1).last_timestamp = some 0 ∧
    tick_sleep_time
      [(0, ⟨0, 0, 0, 1, 0, 0, 0, 1, 0, 0, 0, 0, 0, 0, 0⟩),
       (5000000000, ⟨0, 0, 0, 1, 0, 0, 0, 1, 0, 0, 0, 0, 0, 0, 0⟩)]
      (handle_seek ⟨0, some 0, 1, true⟩ 1) = 1 / 10 ∧
    (1 : ℚ) / 10 ≠ 1 / 100 / 1 := by
  refine ⟨rfl, ?_, by norm_num⟩
  show playback_sleep_time (some 0) (((5000000000 : ℤ) : ℚ) / 1000000000) 1 = 1 / 10
  rw [playback_sleep_time]
  norm_num [min_def, max_def]

/-- C4 (amended): `handle_seek` changes only the cursor and keeps the
pre-seek `last_timestamp`; the next tick paces against that pre-seek
timestamp, so the jump is treated as a discontinuity (fixed
10ms-over-speed default) only when the resulting Δ is negative or
exceeds 10s, while a Δ in (0, 10s] is paced like a normal advance,
clamped to [1ms, 100ms]. -/
theorem seek_pacing (data_list : List (ℤ × DataRow)) (s : LoopState) (i : ℕ)
    (fd : FrameData) (last : ℚ)
    (hfd : get_data_at_index data_list i = some fd)
    (hlast : s.last_timestamp = some last) :
    (handle_seek s i).playback_index = i ∧
    (handle_seek s i).last_timestamp = some last ∧
    tick_sleep_time data_list (handle_seek s i) =
      playback_sleep_time (some last) fd.timestamp_seconds s.playback_speed ∧
    (fd.timestamp_seconds - last < 0 ∨ 10 < fd.timestamp_seconds - last →
      tick_sleep_time data_list (handle_seek s i) =
        1 / 100 / s.playback_speed) ∧
    (0 < fd.timestamp_seconds - last → fd.timestamp_seconds - last ≤ 10 →
      tick_sleep_time data_list (handle_seek s i) =
        max (1 / 1000)
          (min (1 / 10) ((fd.timestamp_seconds - last) / s.playback_speed))) := by
  have htick : tick_sleep_time data_list (handle_seek s i) =
      playback_sleep_time (some last) fd.timestamp_seconds s.playback_speed := by
    unfold tick_sleep_time handle_seek
    simp only [hfd, hlast]
  refine ⟨rfl, by simp [handle_seek, hlast], htick, fun h => ?_, fun h1 h2 => ?_⟩
  · rw [htick]
    rcases h with h | h
    · simp only [playback_sleep_time, if_pos h]
    · simp only [playback_sleep_time]
      rw [if_neg (by linarith), if_pos h]
  · rw [htick]
    simp only [playback_sleep_time]
    rw [if_neg (by linarith), if_neg (by linarith), if_neg (by linarith)]

/-- C4 (amended) witness: a backward seek (Δ = -5s) does take the
default delay. -/
theorem seek_pacing_witness :
    tick_sleep_time [(0, ⟨0, 0, 0, 1, 0, 0, 0, 1, 0, 0, 0, 0, 0, 0, 0⟩)]
      (handle_seek ⟨0, some 5, 1, true⟩ 0) = 1 / 100 / 1 := by
  have h := (seek_pacing [(0, ⟨0, 0, 0, 1, 0, 0, 0, 1, 0, 0, 0, 0, 0, 0, 0⟩)]
      ⟨0, some 5, 1, true⟩ 0
      { index := 0, timestamp_seconds := ((0 : ℤ) : ℚ) / 1000000000,
        timestamp_ns := 0,
        VQ := ⟨0, 0, 0, 1⟩, HQ := qmul ⟨0, 0, 0, 1⟩ ⟨0, 0, 0, 1⟩,
        VLAT := 0, VLON := 0, VALT := 0,
        VVN := 0, VVE := 0, VVD := 0, VINS := 0 }
      5 rfl rfl).2.2.2.1 (Or.inl (by norm_num))
  simpa using h

/-! ## Video timestamp mapper (`video_timestamp_mapper.py`) -/

/-- A JSON scalar as `load_mapping` stores it in a `video_time` slot: a
number or a string.  Python orders two numbers or two strings and
raises `TypeError` on a mixed pair; the `data_timestamp` keys are
modelled as numbers, which is all the claims need. -/
inductive JVal where
  | num : ℚ → JVal
  | str : String → JVal
deriving DecidableEq, Repr

/-- Python `<` on two loaded scalar values: `none` is the `TypeError` a
mixed-type comparison raises. -/
def jlt : JVal → JVal → Option Bool
  | .num a, .num b => some (decide (a < b))
  | .str a, .str b => some (decide (a < b))
  | _, _ => none

/-- Python `==` on two loaded scalar values: a mixed-type pair is
unequal, never an error. -/
def jeq : JVal → JVal → Bool
  | .num a, .num b => decide (a = b)
  | .str a, .str b => decide (a = b)
  | _, _ => false

/-- Python `<` on `(data_timestamp, video_time)` tuples (the line-26
`sorted`): the second components are compared only when the first are
equal, so only then can this comparison raise. -/
def tuple_lt (p q : ℚ × JVal) : Option Bool :=
  if p.1 < q.1 then some true
  else if q.1 < p.1 then some false
  else jlt p.2 q.2

/-- Insertion under a comparison that can raise: `none` propagates the
`TypeError` that aborts Python's `sorted`. -/
def insort_opt {α : Type} (lt : α → α → Option Bool) (x : α) :
    List α → Option (List α)
  | [] => some [x]
  | y :: ys =>
    match lt x y with
    | none => none
    | some true => some (x :: y :: ys)
    | some false => (insort_opt lt x ys).map (y :: ·)

/-- Python `sorted` under a comparison that can raise (a stable
insertion sort; which pairs Timsort happens to compare differs, but a
comparison of mixed-type sort keys is reached exactly when one is
adjacent to the other in the emerging order, and on the concrete inputs
of the theorems below the raise/no-raise outcome agrees with
CPython). -/
def sorted_opt {α : Type} (lt : α → α → Option Bool) :
    List α → Option (List α)
  | [] => some []
  | x :: xs => (sorted_opt lt xs).bind (insort_opt lt x)

/-- The mapper's attribute-level state.  `__init__` assigns
`self.timestamps = []` (with its projections `data_timestamps`,
`video_times`); the attribute `timestamps_by_video` (with its
projections) is only ever assigned by a load that reaches line 31, so
before that it does not exist (`none`) — which `video_to_data_time`'s
`hasattr` guard tests. -/
structure RawMapperState where
  timestamps : List (ℚ × JVal)
  timestamps_by_video : Option (List (ℚ × JVal))
deriving DecidableEq, Repr

/-- The state `VideoTimestampMapper.__init__` builds. -/
def init_raw_mapper : RawMapperState := ⟨[], none⟩

/-- `load_mapping` (`video_timestamp_mapper.py` lines 20-37) at
assignment granularity.  `parsed` is `none` when opening, JSON-decoding
or entry field extraction raises (absent, unreadable or undecodable
source) — all before any assignment.  The line-26 tuple sort also runs
before `self.timestamps` is assigned, so its `TypeError` leaves the
state untouched; but the line-31 by-video sort runs *after* lines 26-29
assigned `timestamps` and its projections, so its `TypeError` is caught
with the new table already installed and `timestamps_by_video` never
created. -/
def load_mapping_raw (st : RawMapperState)
    (parsed : Option (List (ℚ × JVal))) : RawMapperState × Bool :=
  match parsed with
  | none => (st, false)
  | some mapping =>
    match sorted_opt tuple_lt mapping with
    | none => (st, false)
    | some ts =>
      match sorted_opt (fun p q => jlt p.2 q.2) ts with
      | none => ({ st with timestamps := ts }, false)
      | some tbv => (⟨ts, some tbv⟩, true)

/-- `VideoTimestampMapper.is_available` (lines 125-127) over the stored
`timestamps` table. -/
def is_available_raw (timestamps : List (ℚ × JVal)) : Bool :=
  decide (0 < timestamps.length)

/-- `data_to_video_time` (lines 39-80) over the stored table as the
interpreter runs it: the edge, exact-match and duplicate branches
return a stored value whatever its type, while the interpolation branch
does arithmetic on the two video values and raises `TypeError`
(`.error ()`) when one of them is not a number. -/
def data_to_video_time_raw (timestamps : List (ℚ × JVal))
    (data_timestamp : ℚ) : Except Unit (Option JVal) :=
  if timestamps.isEmpty then .ok none
  else
    let idx := bisect_left (timestamps.map Prod.fst) data_timestamp
    if idx = 0 then .ok (some ((timestamps.map Prod.snd).getD 0 (.num 0)))
    else if timestamps.length ≤ idx then
      .ok (some ((timestamps.map Prod.snd).getD (timestamps.length - 1) (.num 0)))
    else
      let p := timestamps.getD (idx - 1) (0, .num 0)
      let q := timestamps.getD idx (0, .num 0)
      if p.1 = data_timestamp then .ok (some p.2)
      else if q.1 = data_timestamp then .ok (some q.2)
      else if q.1 = p.1 then .ok (some p.2)
      else
        match p.2, q.2 with
        | .num v0, .num v1 =>
          .ok (some (.num (v0 +
            (data_timestamp - p.1) / (q.1 - p.1) * (v1 - v0))))
        | _, _ => .error ()

/-- `bisect_left` over loaded video values: the search compares stored
elements with the target and raises on a mixed-type pair.  (Modelled as
the insertion-point scan; which elements a binary search probes
differs, but no theorem below depends on a raising run of it.) -/
def bisect_left_j (l : List JVal) (x : JVal) : Except Unit ℕ :=
  match l with
  | [] => .ok 0
  | y :: ys =>
    match jlt y x with
    | none => .error ()
    | some true => (bisect_left_j ys x).map (· + 1)
    | some false => .ok 0

/-- `video_to_data_time` (lines 82-123) over the attribute-level state:
line 92 returns `None` when `timestamps` is empty or the
`timestamps_by_video` attribute was never assigned; otherwise the
search runs on the stored video values, the exact-match tests use
Python `==` (mixed pairs unequal, no error) and the interpolation
branch raises unless the three values involved are numbers. -/
def video_to_data_time_raw (st : RawMapperState) (video_time : JVal) :
    Except Unit (Option ℚ) :=
  if st.timestamps.isEmpty then .ok none
  else
    match st.timestamps_by_video with
    | none => .ok none
    | some tbv =>
      match bisect_left_j (tbv.map Prod.snd) video_time with
      | .error _ => .error ()
      | .ok idx =>
        if idx = 0 then .ok (some ((tbv.map Prod.fst).getD 0 0))
        else if tbv.length ≤ idx then
          .ok (some ((tbv.map Prod.fst).getD (tbv.length - 1) 0))
        else
          let p := tbv.getD (idx - 1) (0, .num 0)
          let q := tbv.getD idx (0, .num 0)
          if jeq p.2 video_time then .ok (some p.1)
          else if jeq q.2 video_time then .ok (some q.1)
          else if jeq q.2 p.2 then .ok (some p.1)
          else
            match p.2, q.2, video_time with
            | .num v0, .num v1, .num v =>
              .ok (some (p.1 + (v - v0) / (v1 - v0) * (q.1 - p.1)))
            | _, _, _ => .error ()

/-- `VideoTimestampMapper.data_to_video_time` (lines 39-80), reading the
mapper's `timestamps` table (`data_timestamps`/`video_times` are its
two projections). -/
def data_to_video_time (timestamps : List (ℚ × ℚ)) (data_timestamp : ℚ) :
    Option ℚ :=
  if timestamps.isEmpty then none
  else
    let data_timestamps := timestamps.map Prod.fst
    let video_times := timestamps.map Prod.snd
    let idx := bisect_left data_timestamps data_timestamp
    if idx = 0 then some (video_times.getD 0 0)
    else if timestamps.length ≤ idx then
      some (video_times.getD (timestamps.length - 1) 0)
    else
      let p := timestamps.getD (idx - 1) (0, 0)
      let q := timestamps.getD idx (0, 0)
      if p.1 = data_timestamp then some p.2
      else if q.1 = data_timestamp then some q.2
      else if q.1 = p.1 then some p.2
      else some (p.2 + (data_timestamp - p.1) / (q.1 - p.1) * (q.2 - p.2))

/-- `VideoTimestampMapper.video_to_data_time` (lines 82-123), reading
`timestamps_by_video` (`video_times_sorted` / `data_timestamps_by_video`
are its projections; the `hasattr` guard coincides with the emptiness
test because both tables are set by the same successful load). -/
def video_to_data_time (timestamps_by_video : List (ℚ × ℚ))
    (video_time : ℚ) : Option ℚ :=
  if timestamps_by_video.isEmpty then none
  else
    let video_times_sorted := timestamps_by_video.map Prod.snd
    let data_timestamps_by_video := timestamps_by_video.map Prod.fst
    let idx := bisect_left video_times_sorted video_time
    if idx = 0 then some (data_timestamps_by_video.getD 0 0)
    else if timestamps_by_video.length ≤ idx then
      some (data_timestamps_by_video.getD (timestamps_by_video.length - 1) 0)
    else
      let p := timestamps_by_video.getD (idx - 1) (0, 0)
      let q := timestamps_by_video.getD idx (0, 0)
      if p.2 = video_time then some p.1
      else if q.2 = video_time then some q.1
      else if q.2 = p.2 then some p.1
      else some (p.1 + (video_time - p.2) / (q.2 - p.2) * (q.1 - p.1))

/-- C8 counterexample: the decodable source
`[{data 0, video 10}, {data 2, video "x"}]` (distinct data keys, one
string video time) passes the line-26 tuple sort — which never touches
the mixed second components — so `timestamps` is assigned; the line-31
by-video sort then compares `10` with `"x"` and raises `TypeError`.
The caught exception returns `False`, but the mapper is left holding a
populated `timestamps` table and no `timestamps_by_video`: it differs
from the empty initial state, reports *available*, and the forward
query's interpolation branch raises instead of returning `None` — a
partially loaded table is observable. -/
theorem load_mapping_partial_counterexample :
    (load_mapping_raw init_raw_mapper
        (some [(0, .num 10), (2, .str "x")])).1 =
      ⟨[(0, .num 10), (2, .str "x")], none⟩ ∧
    (load_mapping_raw init_raw_mapper
        (some [(0, .num 10), (2, .str "x")])).2 = false ∧
    (load_mapping_raw init_raw_mapper
        (some [(0, .num 10), (2, .str "x")])).1 ≠ init_raw_mapper ∧
    is_available_raw
      (load_mapping_raw init_raw_mapper
        (some [(0, .num 10), (2, .str "x")])).1.timestamps = true ∧
    data_to_video_time_raw
      (load_mapping_raw init_raw_mapper
        (some [(0, .num 10), (2, .str "x")])).1.timestamps 1 =
      .error () := by
  refine ⟨by decide, by decide, by decide, by decide, ?_⟩
  rfl

/-- C8 (amended): failures of opening, decoding, entry extraction or
the line-26 tuple sort happen before any assignment, so they leave the
mapper state untouched (from the initial state: empty, unavailable,
both queries `None`); an empty source loads empty tables and reports
success; and whenever `timestamps_by_video` was never assigned the
reverse query returns `None` via the `hasattr` guard.  But a failure of
the line-31 by-video sort is caught only after `timestamps` was
assigned: the load reports failure yet installs the data-sorted table,
so load atomicity — and with it "no partially loaded table is ever
observable" and "queries never raise" — holds only for failures up to
line 26, not for the load as a whole. -/
theorem load_mapping_atomic_up_to_sort (st : RawMapperState)
    (entries ts : List (ℚ × JVal)) (v : JVal) (t : ℚ) :
    load_mapping_raw st none = (st, false) ∧
    (sorted_opt tuple_lt entries = none →
      load_mapping_raw st (some entries) = (st, false)) ∧
    (sorted_opt tuple_lt entries = some ts →
      sorted_opt (fun p q => jlt p.2 q.2) ts = none →
      load_mapping_raw st (some entries) =
        ({ st with timestamps := ts }, false)) ∧
    load_mapping_raw init_raw_mapper (some []) = (⟨[], some []⟩, true) ∧
    data_to_video_time_raw [] t = .ok none ∧
    (st.timestamps_by_video = none →
      video_to_data_time_raw st v = .ok none) ∧
    is_available_raw [] = false := by
  refine ⟨rfl, fun h1 => ?_, fun h1 h2 => ?_, rfl, rfl, fun h => ?_, rfl⟩
  · simp only [load_mapping_raw, h1]
  · simp only [load_mapping_raw, h1, h2]
  · unfold video_to_data_time_raw
    by_cases he : st.timestamps.isEmpty
    · rw [if_pos he]
    · rw [if_neg he, h]

/-- C8 (amended) witness: over the mixed-type source the tuple sort
succeeds, the by-video sort raises, and the load installs the partial
table; the reverse query on the resulting attribute-absent state still
returns `None`. -/
theorem load_mapping_atomic_up_to_sort_witness :
    load_mapping_raw init_raw_mapper (some [(0, .num 10), (2, .str "x")]) =
      (⟨[(0, .num 10), (2, .str "x")], none⟩, false) ∧
    video_to_data_time_raw ⟨[(0, .num 10), (2, .str "x")], none⟩ (.num 10) =
      .ok none := by
  constructor
  · have h := (load_mapping_atomic_up_to_sort init_raw_mapper
      [(0, .num 10), (2, .str "x")] [(0, .num 10), (2, .str "x")]
      (.num 0) 0).2.2.1 rfl rfl
    simpa using h
  · exact (load_mapping_atomic_up_to_sort
      ⟨[(0, .num 10), (2, .str "x")], none⟩ [] [] (.num 10) 0).2.2.2.2.2.1 rfl

theorem getD_map_swap (l : List (ℚ × ℚ)) (n : ℕ) :
    (l.map Prod.swap).getD n (0, 0) = (l.getD n (0, 0)).swap := by
  rw [List.getD_eq_getElem?_getD, List.getD_eq_getElem?_getD, List.getElem?_map]
  cases h : l[n]? <;> simp [h]

theorem getD_map_fst (l : List (ℚ × ℚ)) (n : ℕ) :
    (l.map Prod.fst).getD n 0 = (l.getD n (0, 0)).1 := by
  rw [List.getD_eq_getElem?_getD, List.getD_eq_getElem?_getD, List.getElem?_map]
  cases h : l[n]? <;> simp [h]

theorem getD_map_snd (l : List (ℚ × ℚ)) (n : ℕ) :
    (l.map Prod.snd).getD n 0 = (l.getD n (0, 0)).2 := by
  rw [List.getD_eq_getElem?_getD, List.getD_eq_getElem?_getD, List.getElem?_map]
  cases h : l[n]? <;> simp [h]

/-- The reverse query is the forward query over the component-swapped
table. -/
theorem video_to_data_eq_swapped (l : List (ℚ × ℚ)) (t : ℚ) :
    video_to_data_time l t = data_to_video_time (l.map Prod.swap) t := by
  unfold video_to_data_time data_to_video_time
  have hkeys : (l.map Prod.swap).map Prod.fst = l.map Prod.snd := by
    rw [List.map_map]
    rfl
  have hvals : (l.map Prod.swap).map Prod.snd = l.map Prod.fst := by
    rw [List.map_map]
    rfl
  have hlen : (l.map Prod.swap).length = l.length := List.length_map _ _
  have hemp : (l.map Prod.swap).isEmpty = l.isEmpty := by cases l <;> rfl
  simp only [hkeys, hvals, hlen, hemp, getD_map_swap, Prod.fst_swap, Prod.snd_swap]

/-- An anchor's own data timestamp maps exactly to its video time when
the data keys are strictly ascending. -/
theorem data_to_video_exact_hit (l : List (ℚ × ℚ)) (a b : ℚ)
    (hs : (l.map Prod.fst).Sorted (· < ·)) (hmem : (a, b) ∈ l) :
    data_to_video_time l a = some b := by
  obtain ⟨⟨k, hk⟩, hget⟩ := List.mem_iff_get.mp hmem
  have hgetD : l.getD k (0, 0) = (a, b) := by
    rw [List.getD_eq_getElem _ _ hk]
    simpa using hget
  have hkey : (l.map Prod.fst).getD k 0 = a := by
    rw [getD_map_fst, hgetD]
  have hemp : l.isEmpty = false := by
    cases l
    · simp at hk
    · rfl
  have hidx : bisect_left (l.map Prod.fst) a = k :=
    bisect_left_eq_of_sorted_getD (l.map Prod.fst) 0 k hs
      (by simpa using hk) a hkey
  unfold data_to_video_time
  simp only [hemp, Bool.false_eq_true, if_false, hidx]
  cases k with
  | zero =>
    have h0 : l[0]? = some (a, b) := by
      rw [List.getElem?_eq_getElem hk]
      simpa [List.get_eq_getElem] using hget
    simp [getD_map_snd, hgetD, h0]
  | succ k =>
    have hb1 : ¬ (k + 1 = 0) := by omega
    have hb2 : ¬ (l.length ≤ k + 1) := by omega
    simp only [hb1, hb2, if_false]
    have hplt : (l.getD k (0, 0)).1 < a := by
      rw [← getD_map_fst, ← hkey]
      exact sorted_getD_lt (l.map Prod.fst) 0 hs k (k + 1) (by omega)
        (by simpa using hk)
    rw [Nat.add_sub_cancel, if_neg (ne_of_lt hplt), if_pos (by rw [hgetD])]
    rw [hgetD]

/-- C6: for a well-formed correspondence table (strictly increasing data
keys in `timestamps`, strictly increasing video keys in
`timestamps_by_video`), every anchor pair `(a, b)` satisfies
`data_to_video_time(a) = b` and `video_to_data_time(b) = a` exactly. -/
theorem mapper_anchor_round_trip (ts tsByVideo : List (ℚ × ℚ)) (a b : ℚ)
    (hs : (ts.map Prod.fst).Sorted (· < ·))
    (hsv : (tsByVideo.map Prod.snd).Sorted (· < ·))
    (hmem : (a, b) ∈ ts) (hmemv : (a, b) ∈ tsByVideo) :
    data_to_video_time ts a = some b ∧
    video_to_data_time tsByVideo b = some a := by
  refine ⟨data_to_video_exact_hit ts a b hs hmem, ?_⟩
  rw [video_to_data_eq_swapped]
  apply data_to_video_exact_hit
  · rw [List.map_map]
    exact hsv
  · exact List.mem_map_of_mem Prod.swap hmemv

/-- C6 witness: in the table `[(1, 10), (2, 20)]` the anchor `(2, 20)`
round-trips exactly. -/
theorem mapper_anchor_round_trip_witness :
    data_to_video_time [(1, 10), (2, 20)] 2 = some 20 ∧
    video_to_data_time [(1, 10), (2, 20)] 20 = some 2 :=
  mapper_anchor_round_trip [(1, 10), (2, 20)] [(1, 10), (2, 20)] 2 20
    (by norm_num) (by norm_num) (by norm_num) (by norm_num)

theorem getD_mem_of_lt {α : Type} (l : List α) (n : ℕ) (d : α)
    (h : n < l.length) : l.getD n d ∈ l := by
  rw [List.getD_eq_getElem _ _ h]
  exact List.getElem_mem h

/-- A convex combination `x + ρ (y - x)` with `0 ≤ ρ ≤ 1` respects any
common upper or lower bound of `x` and `y`. -/
theorem convex_combination_bounds (x y ρ b : ℚ) (h0 : 0 ≤ ρ) (h1 : ρ ≤ 1) :
    (x ≤ b → y ≤ b → x + ρ * (y - x) ≤ b) ∧
    (b ≤ x → b ≤ y → b ≤ x + ρ * (y - x)) := by
  constructor
  · intro hx hy
    nlinarith [mul_nonneg (sub_nonneg.mpr h1) (sub_nonneg.mpr hx),
      mul_nonneg h0 (sub_nonneg.mpr hy)]
  · intro hx hy
    nlinarith [mul_nonneg (sub_nonneg.mpr h1) (sub_nonneg.mpr hx),
      mul_nonneg h0 (sub_nonneg.mpr hy)]

/-- Every `data_to_video_time` result is bounded by every common upper
(resp. lower) bound of the anchor video times. -/
theorem data_to_video_time_bounds (l : List (ℚ × ℚ)) (t r : ℚ)
    (h : data_to_video_time l t = some r) :
    (∀ b : ℚ, (∀ v ∈ l.map Prod.snd, v ≤ b) → r ≤ b) ∧
    (∀ b : ℚ, (∀ v ∈ l.map Prod.snd, b ≤ v) → b ≤ r) := by
  by_cases hemp : l.isEmpty
  · rw [data_to_video_time, if_pos hemp] at h
    exact absurd h (by simp)
  · have hlen : 0 < l.length := by
      cases l
      · simp at hemp
      · simp
    rw [data_to_video_time, if_neg hemp] at h
    simp only [] at h
    by_cases h0 : bisect_left (l.map Prod.fst) t = 0
    · rw [if_pos h0, Option.some.injEq] at h
      have hr : r ∈ l.map Prod.snd := by
        rw [← h]
        exact getD_mem_of_lt (l.map Prod.snd) 0 0 (by simpa using hlen)
      exact ⟨fun b hb => hb r hr, fun b hb => hb r hr⟩
    · rw [if_neg h0] at h
      by_cases h1 : l.length ≤ bisect_left (l.map Prod.fst) t
      · rw [if_pos h1, Option.some.injEq] at h
        have hr : r ∈ l.map Prod.snd := by
          rw [← h]
          exact getD_mem_of_lt (l.map Prod.snd) (l.length - 1) 0
            (by simp; omega)
        exact ⟨fun b hb => hb r hr, fun b hb => hb r hr⟩
      · rw [if_neg h1] at h
        have hidx_lt : bisect_left (l.map Prod.fst) t < l.length := by omega
        have hidx_pos : 0 < bisect_left (l.map Prod.fst) t := by omega
        have hpmem : (l.getD (bisect_left (l.map Prod.fst) t - 1) (0, 0)).2 ∈
            l.map Prod.snd :=
          List.mem_map_of_mem Prod.snd
            (getD_mem_of_lt l _ (0, 0) (by omega))
        have hqmem : (l.getD (bisect_left (l.map Prod.fst) t) (0, 0)).2 ∈
            l.map Prod.snd :=
          List.mem_map_of_mem Prod.snd
            (getD_mem_of_lt l _ (0, 0) hidx_lt)
        by_cases hp1 : (l.getD (bisect_left (l.map Prod.fst) t - 1) (0, 0)).1 = t
        · rw [if_pos hp1, Option.some.injEq] at h
          exact ⟨fun b hb => hb r (h ▸ hpmem), fun b hb => hb r (h ▸ hpmem)⟩
        · rw [if_neg hp1] at h
          by_cases hq1 : (l.getD (bisect_left (l.map Prod.fst) t) (0, 0)).1 = t
          · rw [if_pos hq1, Option.some.injEq] at h
            exact ⟨fun b hb => hb r (h ▸ hqmem), fun b hb => hb r (h ▸ hqmem)⟩
          · rw [if_neg hq1] at h
            by_cases hqp : (l.getD (bisect_left (l.map Prod.fst) t) (0, 0)).1 =
                (l.getD (bisect_left (l.map Prod.fst) t - 1) (0, 0)).1
            · rw [if_pos hqp, Option.some.injEq] at h
              exact ⟨fun b hb => hb r (h ▸ hpmem), fun b hb => hb r (h ▸ hpmem)⟩
            · rw [if_neg hqp, Option.some.injEq] at h
              have hplt : (l.getD (bisect_left (l.map Prod.fst) t - 1) (0, 0)).1 < t := by
                have hpre := bisect_left_prefix_lt (l.map Prod.fst) t 0
                  (bisect_left (l.map Prod.fst) t - 1) (by omega)
                rwa [getD_map_fst] at hpre
              have htle : t ≤ (l.getD (bisect_left (l.map Prod.fst) t) (0, 0)).1 := by
                have hge := bisect_left_le_getD (l.map Prod.fst) t 0
                  (by simpa using hidx_lt)
                rwa [getD_map_fst] at hge
              have htlt : t < (l.getD (bisect_left (l.map Prod.fst) t) (0, 0)).1 :=
                lt_of_le_of_ne htle (fun he => hq1 he.symm)
              have hden : (0 : ℚ) <
                  (l.getD (bisect_left (l.map Prod.fst) t) (0, 0)).1 -
                  (l.getD (bisect_left (l.map Prod.fst) t - 1) (0, 0)).1 := by
                linarith
              have hr0 : (0 : ℚ) ≤
                  (t - (l.getD (bisect_left (l.map Prod.fst) t - 1) (0, 0)).1) /
                  ((l.getD (bisect_left (l.map Prod.fst) t) (0, 0)).1 -
                    (l.getD (bisect_left (l.map Prod.fst) t - 1) (0, 0)).1) :=
                div_nonneg (by linarith) (by linarith)
              have hr1 : (t - (l.getD (bisect_left (l.map Prod.fst) t - 1) (0, 0)).1) /
                  ((l.getD (bisect_left (l.map Prod.fst) t) (0, 0)).1 -
                    (l.getD (bisect_left (l.map Prod.fst) t - 1) (0, 0)).1) ≤ 1 :=
                (div_le_one hden).mpr (by linarith)
              constructor
              · intro b hb
                rw [← h]
                exact (convex_combination_bounds _ _ _ b hr0 hr1).1
                  (hb _ hpmem) (hb _ hqmem)
              · intro b hb
                rw [← h]
                exact (convex_combination_bounds _ _ _ b hr0 hr1).2
                  (hb _ hpmem) (hb _ hqmem)

/-- C10: every result of an available mapper's queries lies within the
closed interval spanned by the anchor values: any common upper (lower)
bound of the anchor video times bounds every `data_to_video_time` result
from above (below), and symmetrically every `video_to_data_time` result
is bounded by the anchor data times — the interior branch is a convex
interpolation between the bracketing anchors and the edge branches clamp
to the first or last anchor, so no extrapolation beyond the anchor set
occurs. -/
theorem mapper_no_extrapolation (l : List (ℚ × ℚ)) (t r : ℚ) :
    (data_to_video_time l t = some r →
      (∀ b : ℚ, (∀ v ∈ l.map Prod.snd, v ≤ b) → r ≤ b) ∧
      (∀ b : ℚ, (∀ v ∈ l.map Prod.snd, b ≤ v) → b ≤ r)) ∧
    (video_to_data_time l t = some r →
      (∀ b : ℚ, (∀ v ∈ l.map Prod.fst, v ≤ b) → r ≤ b) ∧
      (∀ b : ℚ, (∀ v ∈ l.map Prod.fst, b ≤ v) → b ≤ r)) := by
  constructor
  · exact data_to_video_time_bounds l t r
  · intro h
    rw [video_to_data_eq_swapped] at h
    have hb := data_to_video_time_bounds (l.map Prod.swap) t r h
    rwa [List.map_map, show Prod.snd ∘ Prod.swap = Prod.fst from rfl] at hb

/-- C10 witness: the interior query `3/2` on the table
`[(1, 10), (2, 20)]` interpolates to `15`, which the anchor values `10`
and `20` bound on both sides. -/
theorem mapper_no_extrapolation_witness :
    data_to_video_time [(1, 10), (2, 20)] (3 / 2) = some 15 ∧
    (15 : ℚ) ≤ 20 ∧ (10 : ℚ) ≤ 15 := by
  have heq : data_to_video_time [(1, 10), (2, 20)] (3 / 2) = some 15 := by
    norm_num [data_to_video_time, bisect_left]
  refine ⟨heq, ?_, ?_⟩
  · refine ((mapper_no_extrapolation [(1, 10), (2, 20)] (3 / 2) 15).1 heq).1 20 ?_
    intro v hv
    fin_cases hv <;> norm_num
  · refine ((mapper_no_extrapolation [(1, 10), (2, 20)] (3 / 2) 15).1 heq).2 10 ?_
    intro v hv
    fin_cases hv <;> norm_num

end WebDisplay
